import Mathlib

/-!
Shallow embedding of the Gurmukhi-to-Romanised transliteration engine
(`gurbani_unicode_to_romanised` in `src/_cmn.py` of the gurbani_analysis
repository), together with theorems settling the specification claims.

The Python function is a single left-to-right pass over the input string,
keeping a list of emitted fragments (`romanised`), a buffered sihaari vowel
fragment (`buf`) and a pending gemination flag (`adhak`).  Failures of the
Python code (an unhandled `KeyError` from the dictionary lookup, and an
unhandled `IndexError` from indexing an empty fragment list in the pairee
branch) are modelled by an explicit error type.
-/

namespace Gurbani

/-- Runtime failures of the Python scanner: `keyError c` models the
`KeyError` raised by `mapping[char]` when `char` is absent (the exception
carries the offending character and nothing else), and `indexError` models
the `IndexError` raised by `romanised[-1]` on an empty list. -/
inductive PyErr where
  | keyError (c : Char)
  | indexError
deriving DecidableEq

/-- A value of the merged symbol table: either a phonetic fragment string or
the `_LetterType.ADHAK` sentinel used for the two gemination-mark symbols. -/
inductive Mapped where
  | str (s : String)
  | adhakMark
deriving DecidableEq

/-- The backquote character (code point 96), one of the two adhak spellings. -/
def backquote : Char := Char.ofNat 96

/-- `grammar_mapping` from the source: directly mapped punctuation. -/
def grammar_mapping : List (Char × String) :=
  [(' ', " "), ('[', "."), (']', "."), ('.', "."), (',', ",")]

/-- `oora_aera_eeri_mapping` from the source: the three vowel carriers. -/
def oora_aera_eeri_mapping : List (Char × String) :=
  [('a', ""), ('A', "a"), ('e', "")]

/-- `consonant_mapping` from the source.  The source dictionary also holds a
placeholder entry with the three-character key `"@@@"` and value `""`; a
three-character key can never equal a single scanned character, so it is
unreachable by lookup and is omitted here.  Its empty-string value does occur
in `consonant_mapping.values()`, so it is kept in `consonant_values` below. -/
def consonant_mapping : List (Char × String) :=
  [('s', "s"), ('h', "h"), ('k', "k"), ('K', "kh"), ('g', "g"), ('G', "gh"),
   ('|', "ng"), ('c', "ch"), ('C', "chh"), ('j', "j"), ('J', "jh"),
   ('\\', "nj"), ('t', "tt"), ('T', "tth"), ('f', "dd"), ('F', "ddh"),
   ('x', "ṉ"), ('q', "t"), ('Q', "th"), ('d', "d"), ('D', "dh"), ('n', "n"),
   ('p', "p"), ('P', "ph"), ('b', "b"), ('B', "bh"), ('m', "m"), ('X', "y"),
   ('r', "r"), ('l', "l"), ('v', "v"), ('V', "ṙ"), ('S', "sh"), ('Z', "ghh"),
   ('z', "z"), ('L', "ḷ")]

/-- The value set of the source's `consonant_mapping`, i.e.
`consonant_mapping.values()`, including the empty string contributed by the
unreachable `"@@@"` placeholder key. -/
def consonant_values : List String :=
  ["s", "h", "k", "kh", "g", "gh", "ng", "ch", "chh", "j", "jh", "nj", "tt",
   "tth", "dd", "ddh", "ṉ", "t", "th", "d", "dh", "n", "p", "ph", "b", "bh",
   "m", "y", "r", "l", "v", "ṙ", "sh", "ghh", "", "z", "ḷ"]

/-- `pairee_mapping` from the source: subjoined consonants. -/
def pairee_mapping : List (Char × String) :=
  [('H', "h"), ('R', "r")]

/-- `vowel_mapping` from the source: dependent vowel signs. -/
def vowel_mapping : List (Char × String) :=
  [('w', "aa"), ('W', "aaṅ"), ('i', "i"), ('I', "ee"), ('u', "u"),
   ('U', "oo"), ('o', "o"), ('O', "ou"), ('y', "ae"), ('Y', "ai")]

/-- `semi_vowel_mapping` from the source: nasalization marks. -/
def semi_vowel_mapping : List (Char × String) :=
  [('N', "ṅ"), ('M', "ṅ"), ('µ', "ṅ")]

/-- The keys of the source's `special_mapping` (both map to the adhak
sentinel). -/
def special_keys : List Char := ['~', backquote]

/-- Values of `oora_aera_eeri_mapping` (`.values()` in the source). -/
def oora_values : List String := oora_aera_eeri_mapping.map Prod.snd

/-- Keys of `oora_aera_eeri_mapping`. -/
def oora_keys : List Char := oora_aera_eeri_mapping.map Prod.fst

/-- Keys of `consonant_mapping`. -/
def consonant_keys : List Char := consonant_mapping.map Prod.fst

/-- Keys of `pairee_mapping`. -/
def pairee_keys : List Char := pairee_mapping.map Prod.fst

/-- Keys of `vowel_mapping`. -/
def vowel_keys : List Char := vowel_mapping.map Prod.fst

/-- The key list `list(oora_aera_eeri_mapping) + list(consonant_mapping) +
list(pairee_mapping)` used in the mukta-insertion test. -/
def mukta_keys : List Char := oora_keys ++ consonant_keys ++ pairee_keys

/-- Association-list lookup, modelling Python dictionary indexing for the
single-character keys. -/
def lookupStr (l : List (Char × String)) (c : Char) : Option String :=
  (l.find? fun p => p.1 == c).map Prod.snd

/-- The merged `mapping` dictionary of the source (all seven tables merged;
their key sets are pairwise disjoint, so update order does not matter). -/
def mapping (c : Char) : Option Mapped :=
  if special_keys.contains c then some .adhakMark
  else
    ((lookupStr grammar_mapping c).orElse fun _ =>
      (lookupStr oora_aera_eeri_mapping c).orElse fun _ =>
        (lookupStr consonant_mapping c).orElse fun _ =>
          (lookupStr pairee_mapping c).orElse fun _ =>
            (lookupStr vowel_mapping c).orElse fun _ =>
              lookupStr semi_vowel_mapping c).map .str

/-- Python `str.lower` restricted to the characters occurring in fragments
(ASCII plus the four dotted letters used by the tables). -/
def pyLowerChar (c : Char) : Char :=
  if c = 'Ṅ' then 'ṅ'
  else if c = 'Ṙ' then 'ṙ'
  else if c = 'Ṉ' then 'ṉ'
  else if c = 'Ḷ' then 'ḷ'
  else c.toLower

/-- Python `str.lower` on fragment strings. -/
def pyLower (s : String) : String := String.mk (s.toList.map pyLowerChar)

/-- Python `str.upper` restricted to the characters occurring in fragments. -/
def pyUpperChar (c : Char) : Char :=
  if c = 'ṅ' then 'Ṅ'
  else if c = 'ṙ' then 'Ṙ'
  else if c = 'ṉ' then 'Ṉ'
  else if c = 'ḷ' then 'Ḷ'
  else c.toUpper

/-- Python `str.upper` on fragment strings. -/
def pyUpper (s : String) : String := String.mk (s.toList.map pyUpperChar)

/-- Python substring test `"aa" in s`, on the character list. -/
def hasAAList : List Char → Bool
  | c1 :: c2 :: rest => (c1 == 'a' && c2 == 'a') || hasAAList (c2 :: rest)
  | _ => false

/-- Python substring test `"aa" in s`. -/
def hasAA (s : String) : Bool := hasAAList s.toList

/-- Python string indexing `l[k]` with negative-index wraparound:
`l[k] = l[len l + k]` for `k < 0`; out-of-range gives `none`. -/
def pyGet (l : List Char) (k : Int) : Option Char :=
  if 0 ≤ k then l.get? k.toNat
  else if 0 ≤ (l.length : Int) + k then l.get? ((l.length : Int) + k).toNat
  else none

/-- Python `romanised[-1]` under a nonemptiness guard. -/
def lastD (l : List String) : String := l.getLast?.getD ""

/-- Python `romanised[:-1] + [s]`: replace the last element. -/
def setLast (l : List String) (s : String) : List String := l.dropLast ++ [s]

/-- The word-boundary bracketing condition of the source (line 283):
`len(unicode) > 2 and ((unicode[i-2] == "i" and unicode[i-1] != "e") or
(unicode[i-1] == "u" and unicode[i-2] != "a"))`. -/
def wrapCond (full : List Char) (i : Nat) : Bool :=
  decide (2 < full.length) &&
    ((pyGet full ((i : Int) - 2) == some 'i' && pyGet full ((i : Int) - 1) != some 'e') ||
      (pyGet full ((i : Int) - 1) == some 'u' && pyGet full ((i : Int) - 2) != some 'a'))

/-- Call-local scanner state: the emitted fragment list `romanised`, the
buffered sihaari fragment `buf`, and the pending gemination flag `adhak`. -/
structure ScanState where
  romanised : List String
  buf : String
  adhak : Bool
deriving DecidableEq

/-- Lines 296-313 of the source: the aa-collapse and mukta-insertion edits
applied to the fragment list before a default-branch emission. -/
def muktaFix (c : Char) (m : String) (rom : List String) : List String :=
  if rom ≠ [] ∧ pyLower (lastD rom) = "a" ∧ hasAA m = true then
    setLast rom ""
  else if rom ≠ [] ∧
      ((pyLower (lastD rom) ∈ consonant_values ∧ c ∈ mukta_keys) ∨
        (pyLower (lastD rom) ∈ oora_values ∧ c ∈ vowel_keys)) then
    setLast rom (lastD rom ++ "a")
  else rom

/-- Lines 314-318 of the source: emit the mapped fragment if nonempty,
upper-casing it and clearing the flag when a gemination is pending. -/
def emitFrag (m : String) (adhak : Bool) (rom1 : List String) :
    List String × Bool :=
  if m ≠ "" then
    (rom1 ++ [if adhak then pyUpper m else m], if adhak then false else adhak)
  else (rom1, adhak)

/-- Lines 319-321 of the source: flush the buffered sihaari fragment. -/
def flushBuf (buf : String) (rom2 : List String) : List String × String :=
  if buf ≠ "" then (rom2 ++ [buf], "") else (rom2, buf)

/-- The default (else) branch of the scan loop, lines 295-321: mukta edits,
then emission, then the sihaari-buffer flush. -/
def defaultBranch (c : Char) (m : String) (st : ScanState)
    (rom0 : List String) : ScanState :=
  ⟨(flushBuf st.buf (emitFrag m st.adhak (muktaFix c m rom0)).1).1,
   (flushBuf st.buf (emitFrag m st.adhak (muktaFix c m rom0)).1).2,
   (emitFrag m st.adhak (muktaFix c m rom0)).2⟩

/-- Lines 280-287 of the source: the word-boundary bracketing applied to the
fragment list before the branch dispatch (a no-op unless the character is a
space, fragments exist, and the lookback condition holds). -/
def wrapStep (full : List Char) (i : Nat) (c : Char) (st : ScanState) :
    List String :=
  if st.romanised ≠ [] ∧ c = ' ' ∧ wrapCond full i = true then
    setLast st.romanised ("(" ++ lastD st.romanised ++ ")")
  else st.romanised

/-- One iteration of the scan loop (lines 270-321) on character `c` at index
`i` of the full input `full`. -/
def step (full : List Char) (i : Nat) (c : Char) (st : ScanState) :
    Except PyErr ScanState :=
  match mapping c with
  | none => .error (.keyError c)
  | some .adhakMark => .ok { st with adhak := true }
  | some (.str m) =>
    if c = 'i' then .ok { st with romanised := wrapStep full i c st, buf := m }
    else if c ∈ pairee_keys then
      match (wrapStep full i c st).getLast? with
      | none => .error .indexError
      | some lastFrag =>
        if lastFrag = "i" then
          .ok { st with romanised :=
                  (wrapStep full i c st).dropLast.dropLast ++ [m, lastFrag] }
        else .ok { st with romanised := wrapStep full i c st ++ [m] }
    else .ok (defaultBranch c m st (wrapStep full i c st))

/-- The scan loop: process the remaining characters, threading the index
into the full input (needed by the word-boundary lookback). -/
def scan (full : List Char) : List Char → Nat → ScanState →
    Except PyErr ScanState
  | [], _, st => .ok st
  | c :: rest, i, st =>
    match step full i c st with
    | .error e => .error e
    | .ok st2 => scan full rest (i + 1) st2

/-- `gurbani_unicode_to_romanised` from `src/_cmn.py`: run the scan from the
empty state and join the emitted fragments (the final `buf` and `adhak` are
discarded by the return statement). -/
def gurbani_unicode_to_romanised (unicode : String) : Except PyErr String :=
  (scan unicode.toList unicode.toList 0 ⟨[], "", false⟩).map fun st =>
    String.join st.romanised

/-- The specification's name for the engine's single public operation. -/
def transliterate : String → Except PyErr String :=
  gurbani_unicode_to_romanised

instance {ε α : Type} [DecidableEq ε] [DecidableEq α] :
    DecidableEq (Except ε α) := fun a b =>
  match a, b with
  | .ok x, .ok y =>
    if h : x = y then isTrue (by rw [h])
    else isFalse (by intro hc; cases hc; exact h rfl)
  | .error x, .error y =>
    if h : x = y then isTrue (by rw [h])
    else isFalse (by intro hc; cases hc; exact h rfl)
  | .ok _, .error _ => isFalse (by intro hc; cases hc)
  | .error _, .ok _ => isFalse (by intro hc; cases hc)

/-- The four directly-mapped punctuation/whitespace symbols named by the
closure property (space, the two sentence-end marks, comma). -/
def direct_punct : List Char := [' ', '[', ']', ',']

/-- The character-by-character direct table mapping used by the closure
property (the `grammar_mapping` entry of a punctuation symbol). -/
def directMap (c : Char) : String := (lookupStr grammar_mapping c).getD ""

/-! ### Helper lemmas about the scanner -/

theorem pyGet_mem {l : List Char} {k : Int} {c : Char}
    (h : pyGet l k = some c) : c ∈ l := by
  unfold pyGet at h
  split at h
  · exact List.get?_mem h
  · split at h
    · exact List.get?_mem h
    · cases h

theorem wrapStep_of_ne_space (full : List Char) (i : Nat) (c : Char)
    (st : ScanState) (h : c ≠ ' ') : wrapStep full i c st = st.romanised := by
  unfold wrapStep
  rw [if_neg]
  rintro ⟨-, h2, -⟩
  exact h h2

theorem wrapStep_of_cond_false (full : List Char) (i : Nat) (c : Char)
    (st : ScanState) (h : wrapCond full i = false) :
    wrapStep full i c st = st.romanised := by
  unfold wrapStep
  rw [if_neg]
  rintro ⟨-, -, h2⟩
  rw [h] at h2
  cases h2

theorem wrapStep_space (full : List Char) (i : Nat) (st : ScanState)
    (p : String) (hp : st.romanised.getLast? = some p)
    (hw : wrapCond full i = true) :
    wrapStep full i ' ' st = st.romanised.dropLast ++ ["(" ++ p ++ ")"] := by
  have hne : st.romanised ≠ [] := by
    intro h
    rw [h] at hp
    cases hp
  unfold wrapStep
  rw [if_pos ⟨hne, rfl, hw⟩]
  unfold setLast lastD
  rw [hp]
  rfl

theorem step_unmapped (full : List Char) (i : Nat) (c : Char) (st : ScanState)
    (h : mapping c = none) : step full i c st = .error (.keyError c) := by
  simp only [step, h]

theorem step_adhakMark (full : List Char) (i : Nat) (c : Char) (st : ScanState)
    (h : mapping c = some .adhakMark) :
    step full i c st = .ok { st with adhak := true } := by
  simp only [step, h]

theorem step_sihaari (full : List Char) (i : Nat) (st : ScanState) :
    step full i 'i' st = .ok { st with buf := "i" } := by
  have hm : mapping 'i' = some (.str "i") := rfl
  simp only [step, hm]
  rw [if_pos trivial, wrapStep_of_ne_space full i 'i' st (by decide)]

theorem step_default (full : List Char) (i : Nat) (c : Char) (st : ScanState)
    (m : String) (hm : mapping c = some (.str m)) (hi : c ≠ 'i')
    (hpk : c ∉ pairee_keys) :
    step full i c st = .ok (defaultBranch c m st (wrapStep full i c st)) := by
  simp only [step, hm]
  rw [if_neg hi, if_neg hpk]

theorem step_pairee_append (full : List Char) (i : Nat) (c : Char)
    (st : ScanState) (m p : String) (hm : mapping c = some (.str m))
    (hc : c ∈ pairee_keys) (hi : c ≠ 'i') (hsp : c ≠ ' ')
    (hp : st.romanised.getLast? = some p) (hpi : p ≠ "i") :
    step full i c st = .ok { st with romanised := st.romanised ++ [m] } := by
  simp only [step, hm]
  rw [if_neg hi, if_pos hc, wrapStep_of_ne_space full i c st hsp, hp]
  dsimp only
  rw [if_neg hpi]

theorem emitFrag_of_ne (m : String) (adk : Bool) (rom1 : List String)
    (h : m ≠ "") :
    emitFrag m adk rom1 =
      (rom1 ++ [if adk then pyUpper m else m], if adk then false else adk) := by
  unfold emitFrag
  rw [if_pos h]

theorem emitFrag_empty (adk : Bool) (rom1 : List String) :
    emitFrag "" adk rom1 = (rom1, adk) := by
  unfold emitFrag
  rw [if_neg fun h => h rfl]

theorem flushBuf_of_ne (buf : String) (rom2 : List String) (h : buf ≠ "") :
    flushBuf buf rom2 = (rom2 ++ [buf], "") := by
  unfold flushBuf
  rw [if_pos h]

theorem flushBuf_empty (rom2 : List String) :
    flushBuf "" rom2 = (rom2, "") := by
  unfold flushBuf
  rw [if_neg fun h => h rfl]

theorem hasAA_ne_empty {m : String} (h : hasAA m = true) : m ≠ "" := by
  intro hcon
  rw [hcon] at h
  exact absurd h (by decide)

theorem muktaFix_noTrigger (c : Char) (m : String) (rom : List String)
    (hAA : hasAA m = false) (hmk : c ∉ mukta_keys) (hvk : c ∉ vowel_keys) :
    muktaFix c m rom = rom := by
  unfold muktaFix
  rw [if_neg, if_neg]
  · rintro ⟨-, h⟩
    rcases h with ⟨-, h⟩ | ⟨-, h⟩
    exacts [hmk h, hvk h]
  · rintro ⟨-, -, h⟩
    rw [hAA] at h
    cases h

theorem muktaFix_space (rom : List String) : muktaFix ' ' " " rom = rom := by
  apply muktaFix_noTrigger <;> decide

theorem muktaFix_insert (c : Char) (m : String) (rom : List String)
    (p : String) (hp : rom.getLast? = some p)
    (hno : ¬(pyLower p = "a" ∧ hasAA m = true))
    (hcond : (pyLower p ∈ consonant_values ∧ c ∈ mukta_keys) ∨
      (pyLower p ∈ oora_values ∧ c ∈ vowel_keys)) :
    muktaFix c m rom = rom.dropLast ++ [p ++ "a"] := by
  have hne : rom ≠ [] := by
    intro h
    rw [h] at hp
    cases hp
  have hlast : lastD rom = p := by
    unfold lastD
    rw [hp]
    rfl
  unfold muktaFix
  rw [hlast, if_neg fun h => hno h.2, if_pos ⟨hne, hcond⟩]
  unfold setLast
  rfl

theorem muktaFix_collapse (c : Char) (m : String) (rom : List String)
    (p : String) (hp : rom.getLast? = some p) (ha : pyLower p = "a")
    (hAA : hasAA m = true) : muktaFix c m rom = rom.dropLast ++ [""] := by
  have hne : rom ≠ [] := by
    intro h
    rw [h] at hp
    cases hp
  have hlast : lastD rom = p := by
    unfold lastD
    rw [hp]
    rfl
  unfold muktaFix
  rw [hlast, if_pos ⟨hne, ha, hAA⟩]
  unfold setLast
  rfl

theorem step_flushes_buf (full : List Char) (i : Nat) (c : Char)
    (st : ScanState) (m : String) (hm : mapping c = some (.str m))
    (hi : c ≠ 'i') (hpk : c ∉ pairee_keys) (hbuf : st.buf ≠ "") :
    (step full i c st).map (fun s2 => (s2.buf, s2.romanised.getLast?)) =
      .ok ("", some st.buf) := by
  rw [step_default full i c st m hm hi hpk]
  unfold defaultBranch
  rw [flushBuf_of_ne _ _ hbuf]
  dsimp only [Except.map]
  rw [List.getLast?_concat]

theorem step_applies_adhak (full : List Char) (i : Nat) (c : Char)
    (st : ScanState) (m : String) (hm : mapping c = some (.str m))
    (hi : c ≠ 'i') (hpk : c ∉ pairee_keys) (hm0 : m ≠ "")
    (hadk : st.adhak = true) (hbuf : st.buf = "") :
    (step full i c st).map (fun s2 => (s2.romanised.getLast?, s2.adhak)) =
      .ok (some (pyUpper m), false) := by
  rw [step_default full i c st m hm hi hpk]
  unfold defaultBranch
  rw [emitFrag_of_ne _ _ _ hm0, hadk, hbuf, flushBuf_empty]
  dsimp only [Except.map]
  rw [List.getLast?_concat]
  rfl

theorem step_pairee_keeps_adhak (full : List Char) (i : Nat) (c : Char)
    (st : ScanState) (m p : String) (hm : mapping c = some (.str m))
    (hc : c ∈ pairee_keys) (hi : c ≠ 'i') (hsp : c ≠ ' ')
    (hp : st.romanised.getLast? = some p) (hpi : p ≠ "i") :
    (step full i c st).map
        (fun s2 => (s2.romanised.getLast?, s2.adhak, s2.buf)) =
      .ok (some m, st.adhak, st.buf) := by
  rw [step_pairee_append full i c st m p hm hc hi hsp hp hpi]
  dsimp only [Except.map]
  rw [List.getLast?_concat]

theorem step_space_wrap (full : List Char) (i : Nat) (st : ScanState)
    (p : String) (hp : st.romanised.getLast? = some p)
    (hw : wrapCond full i = true) :
    step full i ' ' st =
      .ok ⟨((st.romanised.dropLast ++ ["(" ++ p ++ ")"]) ++ [" "]) ++
            (if st.buf = "" then [] else [st.buf]), "", false⟩ := by
  have hm : mapping ' ' = some (.str " ") := rfl
  rw [step_default full i ' ' st " " hm (by decide) (by decide),
    wrapStep_space full i st p hp hw]
  unfold defaultBranch
  rw [muktaFix_space, emitFrag_of_ne _ _ _ (by decide)]
  have h1 : (if st.adhak then pyUpper " " else " ") = " " := by
    cases st.adhak <;> rfl
  have h2 : (if st.adhak then false else st.adhak) = false := by
    cases st.adhak <;> rfl
  rw [h1, h2]
  by_cases hb : st.buf = ""
  · rw [hb, flushBuf_empty]
    simp
  · rw [flushBuf_of_ne _ _ hb, if_neg hb]

theorem step_mukta_insert (full : List Char) (i : Nat) (c : Char)
    (st : ScanState) (m p : String) (hm : mapping c = some (.str m))
    (hi : c ≠ 'i') (hpk : c ∉ pairee_keys) (hsp : c ≠ ' ')
    (hp : st.romanised.getLast? = some p)
    (hno : ¬(pyLower p = "a" ∧ hasAA m = true))
    (hcond : (pyLower p ∈ consonant_values ∧ c ∈ mukta_keys) ∨
      (pyLower p ∈ oora_values ∧ c ∈ vowel_keys)) :
    step full i c st =
      .ok ⟨((st.romanised.dropLast ++ [p ++ "a"]) ++
              (if m = "" then [] else [if st.adhak then pyUpper m else m])) ++
            (if st.buf = "" then [] else [st.buf]), "",
          if m = "" then st.adhak else false⟩ := by
  rw [step_default full i c st m hm hi hpk,
    wrapStep_of_ne_space full i c st hsp]
  unfold defaultBranch
  rw [muktaFix_insert c m st.romanised p hp hno hcond]
  by_cases hm0 : m = ""
  · rw [hm0, emitFrag_empty]
    by_cases hb : st.buf = ""
    · rw [hb, flushBuf_empty]
      simp
    · rw [flushBuf_of_ne _ _ hb]
      simp [hb]
  · rw [emitFrag_of_ne _ _ _ hm0]
    have h2 : (if st.adhak then false else st.adhak) = false := by
      cases st.adhak <;> rfl
    rw [h2]
    by_cases hb : st.buf = ""
    · rw [hb, flushBuf_empty]
      simp [hm0]
    · rw [flushBuf_of_ne _ _ hb]
      simp [hm0, hb]

theorem step_mukta_collapse (full : List Char) (i : Nat) (c : Char)
    (st : ScanState) (m p : String) (hm : mapping c = some (.str m))
    (hi : c ≠ 'i') (hpk : c ∉ pairee_keys) (hsp : c ≠ ' ')
    (hp : st.romanised.getLast? = some p) (ha : pyLower p = "a")
    (hAA : hasAA m = true) :
    step full i c st =
      .ok ⟨((st.romanised.dropLast ++ [""]) ++
              [if st.adhak then pyUpper m else m]) ++
            (if st.buf = "" then [] else [st.buf]), "", false⟩ := by
  rw [step_default full i c st m hm hi hpk,
    wrapStep_of_ne_space full i c st hsp]
  unfold defaultBranch
  rw [muktaFix_collapse c m st.romanised p hp ha hAA,
    emitFrag_of_ne _ _ _ (hasAA_ne_empty hAA)]
  have h2 : (if st.adhak then false else st.adhak) = false := by
    cases st.adhak <;> rfl
  rw [h2]
  by_cases hb : st.buf = ""
  · rw [hb, flushBuf_empty]
    simp
  · rw [flushBuf_of_ne _ _ hb]
    simp [hb]

theorem defaultBranch_plain (c : Char) (m : String) (st : ScanState)
    (rom : List String) (hAA : hasAA m = false) (hmk : c ∉ mukta_keys)
    (hvk : c ∉ vowel_keys) (hm0 : m ≠ "") (hbuf : st.buf = "")
    (hadk : st.adhak = false) :
    defaultBranch c m st rom = ⟨rom ++ [m], "", false⟩ := by
  unfold defaultBranch
  rw [muktaFix_noTrigger c m rom hAA hmk hvk, emitFrag_of_ne _ _ _ hm0, hadk,
    hbuf, flushBuf_empty]
  rfl

theorem pyGet_punct_beq (full : List Char)
    (hfull : ∀ d ∈ full, d ∈ direct_punct) (k : Int) (x : Char)
    (hx : x ∉ direct_punct) : (pyGet full k == some x) = false := by
  rcases hg : pyGet full k with _ | c
  · rfl
  · have hc := hfull c (pyGet_mem hg)
    exact beq_eq_false_iff_ne.mpr fun h => hx (Option.some.inj h ▸ hc)

theorem wrapCond_punct (full : List Char) (i : Nat)
    (hfull : ∀ d ∈ full, d ∈ direct_punct) : wrapCond full i = false := by
  unfold wrapCond
  rw [pyGet_punct_beq full hfull ((i : Int) - 2) 'i' (by decide),
    pyGet_punct_beq full hfull ((i : Int) - 1) 'u' (by decide)]
  simp

theorem step_punct (full : List Char) (i : Nat) (c : Char) (st : ScanState)
    (hc : c ∈ direct_punct) (hfull : ∀ d ∈ full, d ∈ direct_punct)
    (hbuf : st.buf = "") (hadk : st.adhak = false) :
    step full i c st = .ok ⟨st.romanised ++ [directMap c], "", false⟩ := by
  rcases (show c = ' ' ∨ c = '[' ∨ c = ']' ∨ c = ',' by
    simpa [direct_punct] using hc) with rfl | rfl | rfl | rfl
  · rw [step_default full i ' ' st " " rfl (by decide) (by decide),
      wrapStep_of_cond_false full i ' ' st (wrapCond_punct full i hfull),
      defaultBranch_plain ' ' " " st st.romanised (by decide) (by decide)
        (by decide) (by decide) hbuf hadk]
    rfl
  · rw [step_default full i '[' st "." rfl (by decide) (by decide),
      wrapStep_of_ne_space full i '[' st (by decide),
      defaultBranch_plain '[' "." st st.romanised (by decide) (by decide)
        (by decide) (by decide) hbuf hadk]
    rfl
  · rw [step_default full i ']' st "." rfl (by decide) (by decide),
      wrapStep_of_ne_space full i ']' st (by decide),
      defaultBranch_plain ']' "." st st.romanised (by decide) (by decide)
        (by decide) (by decide) hbuf hadk]
    rfl
  · rw [step_default full i ',' st "," rfl (by decide) (by decide),
      wrapStep_of_ne_space full i ',' st (by decide),
      defaultBranch_plain ',' "," st st.romanised (by decide) (by decide)
        (by decide) (by decide) hbuf hadk]
    rfl

theorem scan_nil (full : List Char) (i : Nat) (st : ScanState) :
    scan full [] i st = .ok st := rfl

theorem scan_cons (full : List Char) (c : Char) (rest : List Char) (i : Nat)
    (st st2 : ScanState) (h : step full i c st = .ok st2) :
    scan full (c :: rest) i st = scan full rest (i + 1) st2 := by
  simp only [scan, h]

theorem scan_punct (full : List Char)
    (hfull : ∀ d ∈ full, d ∈ direct_punct) :
    ∀ (rest : List Char) (i : Nat) (st : ScanState),
      (∀ d ∈ rest, d ∈ direct_punct) → st.buf = "" → st.adhak = false →
      scan full rest i st =
        .ok ⟨st.romanised ++ rest.map directMap, "", false⟩ := by
  intro rest
  induction rest with
  | nil =>
    intro i st _ hbuf hadk
    rw [scan_nil]
    rcases st with ⟨rom, buf, adk⟩
    simp only at hbuf hadk
    simp [hbuf, hadk]
  | cons c rest ih =>
    intro i st hrest hbuf hadk
    have hc : c ∈ direct_punct := hrest c (List.mem_cons_self c rest)
    have hrest2 : ∀ d ∈ rest, d ∈ direct_punct := fun d hd =>
      hrest d (List.mem_cons_of_mem c hd)
    rw [scan_cons full c rest i st _ (step_punct full i c st hc hfull hbuf hadk),
      ih (i + 1) ⟨st.romanised ++ [directMap c], "", false⟩ hrest2 rfl rfl]
    simp

theorem pyGet_neg_one (l : List Char) (h : l ≠ []) :
    pyGet l (-1) = l.getLast? := by
  unfold pyGet
  have hlen : 0 < l.length := List.length_pos.mpr h
  rw [if_neg (by decide : ¬(0 : Int) ≤ -1),
    if_pos (by omega : (0 : Int) ≤ (l.length : Int) + -1)]
  have ht : ((l.length : Int) + -1).toNat = l.length - 1 := by omega
  rw [ht, List.get?_eq_getElem?, ← List.getLast?_eq_getElem?]

example : transliterate "kn" = .ok "kan" := by decide

example : transliterate "k~w" = .ok "kAA" := by decide

example : transliterate "iH" = .error .indexError := by decide

example : transliterate "ikH" = .ok "hi" := by decide

example : transliterate "ik" = .ok "ki" := by decide

example : transliterate "k!" = .error (.keyError '!') := by decide

example : transliterate "kil " = .ok "kal(i) " := by decide

example : transliterate "u " = .ok "u " := by decide

example : transliterate "k ki" = .ok "(k) k" := by decide

example : transliterate "k kk" = .ok "k kak" := by decide

example : transliterate "k ki~" = .ok "k k" := by decide

example : transliterate "k~R" = .ok "kr" := by decide

example : transliterate "k~N" = .ok "kṄ" := by decide

example : transliterate "Ak" = .ok "ak" := by decide

example : transliterate "iw" = .ok "aai" := by decide

example : transliterate "i " = .ok " i" := by decide

example : transliterate "ki" = .ok "k" := by decide

/-! ### Claim theorems -/

/-- Claim C1, counterexample.  The claim says the failure carries the
offending character *and its zero-based index*.  The code raises the bare
`KeyError` of the dictionary lookup, which carries only the character: the
inputs `"!"` (offender at index 0) and `"k!"` (offender at index 1) produce
the *same* error value, so the error identifies no index (and the code has
no `UnrecognizedSymbolError` type at all). -/
theorem claim_C1_counterexample :
    transliterate "!" = .error (.keyError '!') ∧
      transliterate "k!" = .error (.keyError '!') :=
  ⟨by decide, by decide⟩

/-- Claim C1, amended: for every input containing a character that appears
in none of the classification tables, `transliterate` fails with the lookup
`KeyError` carrying the offending character (but not its index), raised at
the first such character, and no output string is produced (first conjunct:
the failure is raised the instant the scanner meets an unmapped character,
in any state; second conjunct: a concrete run, the offender at index 2). -/
theorem claim_C1 :
    (∀ (full : List Char) (i : Nat) (c : Char) (st : ScanState),
        mapping c = none → step full i c st = .error (.keyError c)) ∧
      transliterate "ab?" = .error (.keyError '?') :=
  ⟨step_unmapped, by decide⟩

/-- Claim C1, witness: the general conjunct applied at the unmapped
character `?` in the initial state. -/
theorem claim_C1_witness :
    step [] 0 '?' ⟨[], "", false⟩ = .error (.keyError '?') :=
  claim_C1.1 [] 0 '?' ⟨[], "", false⟩ rfl

/-- Claim C2, counterexample.  The claim expects `transliterate "k~w"` to
be `"Kaa"`; the code upper-cases the fragment emitted *after* the mark (the
vowel fragment `"aa"`), leaving the consonant fragment alone, and returns
`"kAA"`. -/
theorem claim_C2_counterexample :
    transliterate "k~w" = .ok "kAA" ∧ "kAA" ≠ "Kaa" :=
  ⟨by decide, by decide⟩

/-- Claim C2, amended: `transliterate "k~w"` returns exactly `"kAA"`: the
gemination mark upper-cases (in its entirety) the fragment that follows the
mark, which here is the vowel fragment `"aa"`, not the preceding consonant
fragment. -/
theorem claim_C2 : transliterate "k~w" = .ok "kAA" := by decide

/-- Claim C3 (code bug): the claim describes the intended pairee splice
(base consonant kept, pairee inserted before the vowel).  The code instead
(a) crashes with an `IndexError` on `"iH"` because the pairee branch reads
`romanised[-1]` from an empty list, and (b) on `"ikH"` drops the base
consonant fragment because the splice uses `romanised[:-2]` where
`romanised[:-1]` would keep it, returning `"hi"` instead of `"khi"`. -/
theorem claim_C3 :
    transliterate "iH" = .error .indexError ∧
      transliterate "ikH" = .ok "hi" :=
  ⟨by decide, by decide⟩

/-- Claim C4, counterexample.  The claim says the buffered sihaari fragment
is appended immediately after the very next *consonant-class* fragment.  The
input `"iw"` contains no consonant-class symbol at all (no consonant, no
carrier, no pairee), yet the buffered `"i"` is emitted right after the vowel
fragment `"aa"`. -/
theorem claim_C4_counterexample :
    transliterate "iw" = .ok "aai" ∧
      ("iw".toList.all fun c => !(mukta_keys.contains c)) = true :=
  ⟨by decide, by decide⟩

/-- Claim C4, amended: the sihaari's fragment is never emitted at its own
source position (first conjunct: scanning `i` only stores the fragment in
the buffer and leaves the output untouched); the buffer is flushed at the
end of the next default-branch step, whatever the symbol's class (second
conjunct: after any non-sihaari, non-pairee, non-adhak symbol the new state
has an empty buffer and the old buffer contents as last output fragment);
in particular `transliterate "ik" = "ki"` (third conjunct). -/
theorem claim_C4 :
    (∀ (full : List Char) (i : Nat) (st : ScanState),
        step full i 'i' st = .ok { st with buf := "i" }) ∧
      (∀ (full : List Char) (i : Nat) (c : Char) (st : ScanState) (m : String),
        mapping c = some (.str m) → c ≠ 'i' → c ∉ pairee_keys →
        st.buf ≠ "" →
        (step full i c st).map (fun s2 => (s2.buf, s2.romanised.getLast?)) =
          .ok ("", some st.buf)) ∧
      transliterate "ik" = .ok "ki" :=
  ⟨step_sihaari, step_flushes_buf, by decide⟩

/-- Claim C4, witness: the flush conjunct applied to the vowel sign `w`
while the fragment `"i"` is buffered. -/
theorem claim_C4_witness :
    (step [] 0 'w' ⟨["k"], "i", false⟩).map
        (fun s2 => (s2.buf, s2.romanised.getLast?)) = .ok ("", some "i") :=
  claim_C4.2.1 [] 0 'w' ⟨["k"], "i", false⟩ "aa" rfl (by decide) (by decide)
    (by decide)

/-- Claim C5, counterexample.  The claim requires an implicit `"a"` between
any two adjacent fragments of the consonant/carrier/pairee classes, but the
code keys the test on the *previous fragment's string value*, not its class:
after the carrier `A` (fragment `"a"`, not a consonant-table value) the
consonant `k` triggers no insertion, so `transliterate "Ak"` is `"ak"`, not
`"aak"`. -/
theorem claim_C5_counterexample :
    transliterate "Ak" = .ok "ak" ∧ "ak" ≠ "aak" :=
  ⟨by decide, by decide⟩

/-- Claim C5, amended: in a default-branch step with at least one fragment
emitted, (first conjunct) when the previous fragment lower-cased is a
consonant-table *value* and the incoming symbol is a carrier/consonant/
pairee key, or the previous fragment lower-cased is a carrier-table value
(`""` or `"a"`) and the incoming symbol is a dependent vowel sign, `"a"` is
appended to the previous fragment before the new fragment is emitted;
(second conjunct) except that when the previous fragment lower-cased is
exactly `"a"` and the incoming fragment contains `"aa"`, the previous
fragment is replaced by the empty string instead; in particular
`transliterate "kn" = "kan"` (third conjunct). -/
theorem claim_C5 :
    (∀ (full : List Char) (i : Nat) (c : Char) (st : ScanState)
        (m p : String),
        mapping c = some (.str m) → c ≠ 'i' → c ∉ pairee_keys → c ≠ ' ' →
        st.romanised.getLast? = some p →
        ¬(pyLower p = "a" ∧ hasAA m = true) →
        ((pyLower p ∈ consonant_values ∧ c ∈ mukta_keys) ∨
          (pyLower p ∈ oora_values ∧ c ∈ vowel_keys)) →
        step full i c st =
          .ok ⟨((st.romanised.dropLast ++ [p ++ "a"]) ++
                  (if m = "" then []
                    else [if st.adhak then pyUpper m else m])) ++
                (if st.buf = "" then [] else [st.buf]), "",
              if m = "" then st.adhak else false⟩) ∧
      (∀ (full : List Char) (i : Nat) (c : Char) (st : ScanState)
        (m p : String),
        mapping c = some (.str m) → c ≠ 'i' → c ∉ pairee_keys → c ≠ ' ' →
        st.romanised.getLast? = some p → pyLower p = "a" → hasAA m = true →
        step full i c st =
          .ok ⟨((st.romanised.dropLast ++ [""]) ++
                  [if st.adhak then pyUpper m else m]) ++
                (if st.buf = "" then [] else [st.buf]), "", false⟩) ∧
      transliterate "kn" = .ok "kan" :=
  ⟨step_mukta_insert, step_mukta_collapse, by decide⟩

/-- Claim C5, witness: the insertion conjunct applied to `n` scanned after
the emitted consonant fragment `"k"`, giving `"ka"` then `"n"`. -/
theorem claim_C5_witness :
    step [] 0 'n' ⟨["k"], "", false⟩ = .ok ⟨["ka", "n"], "", false⟩ :=
  (claim_C5.1 [] 0 'n' ⟨["k"], "", false⟩ "n" "k" rfl (by decide) (by decide)
    (by decide) rfl (by decide) (by decide)).trans (by decide)

/-- Claim C6, counterexample.  The claim says the first fragment emitted
after a pending gemination flag is upper-cased regardless of the producing
class, including subjoined pairee consonants.  The pairee branch never
consults the flag: `transliterate "k~R"` yields `"kr"`, not `"kR"`. -/
theorem claim_C6_counterexample :
    transliterate "k~R" = .ok "kr" ∧ "kr" ≠ "kR" :=
  ⟨by decide, by decide⟩

/-- Claim C6, amended: the first nonempty fragment emitted by the *default*
branch after the gemination flag is set is upper-cased in its entirety and
the flag is cleared (first conjunct), for any symbol class that branch
handles (consonant, vowel sign, nasalization mark, punctuation, carrier);
but a fragment emitted by the subjoined-pairee branch is appended unchanged
and leaves the flag pending (second conjunct); e.g. the nasalization mark
in `"k~N"` is upper-cased: `transliterate "k~N" = "kṄ"` (third conjunct). -/
theorem claim_C6 :
    (∀ (full : List Char) (i : Nat) (c : Char) (st : ScanState) (m : String),
        mapping c = some (.str m) → c ≠ 'i' → c ∉ pairee_keys → m ≠ "" →
        st.adhak = true → st.buf = "" →
        (step full i c st).map
            (fun s2 => (s2.romanised.getLast?, s2.adhak)) =
          .ok (some (pyUpper m), false)) ∧
      (∀ (full : List Char) (i : Nat) (c : Char) (st : ScanState)
        (m p : String),
        mapping c = some (.str m) → c ∈ pairee_keys → c ≠ 'i' → c ≠ ' ' →
        st.romanised.getLast? = some p → p ≠ "i" →
        (step full i c st).map
            (fun s2 => (s2.romanised.getLast?, s2.adhak, s2.buf)) =
          .ok (some m, st.adhak, st.buf)) ∧
      transliterate "k~N" = .ok "kṄ" :=
  ⟨step_applies_adhak,
    fun full i c st m p hm hc hi hsp hp hpi =>
      step_pairee_keeps_adhak full i c st m p hm hc hi hsp hp hpi,
    by decide⟩

/-- Claim C6, witness: the default-branch conjunct applied to the vowel
sign `w` with the flag pending: the emitted fragment is `pyUpper "aa"` and
the flag is cleared. -/
theorem claim_C6_witness :
    (step [] 0 'w' ⟨["k"], "", true⟩).map
        (fun s2 => (s2.romanised.getLast?, s2.adhak)) =
      .ok (some (pyUpper "aa"), false) :=
  claim_C6.1 [] 0 'w' ⟨["k"], "", true⟩ "aa" rfl (by decide) (by decide)
    (by decide) rfl rfl

/-- Claim C7, counterexample.  The claim requires bracketing whenever the
word before a space ends on a bare aunkar; the code additionally requires
the *whole input* to be longer than 2 characters, so the bare-aunkar word in
`"u "` is not bracketed: the output is `"u "`, not `"(u) "`. -/
theorem claim_C7_counterexample :
    transliterate "u " = .ok "u " ∧ "u " ≠ "(u) " :=
  ⟨by decide, by decide⟩

/-- Claim C7, amended: on scanning a space with at least one fragment
emitted, *if the input is longer than 2 characters and* the source character
two before the space is `i` with the character directly before it not `e`,
or the character directly before is `u` with the character two before not
`a` (negative lookback indices wrapping to the end of the input), then the
most recently emitted fragment is wrapped in parentheses before the space
fragment is emitted (first conjunct, with `wrapCond` exactly that guard);
e.g. a word ending on a bare sihaari: `transliterate "kil " = "kal(i) "`
(second conjunct). -/
theorem claim_C7 :
    (∀ (full : List Char) (i : Nat) (st : ScanState) (p : String),
        st.romanised.getLast? = some p → wrapCond full i = true →
        step full i ' ' st =
          .ok ⟨((st.romanised.dropLast ++ ["(" ++ p ++ ")"]) ++ [" "]) ++
                (if st.buf = "" then [] else [st.buf]), "", false⟩) ∧
      transliterate "kil " = .ok "kal(i) " :=
  ⟨step_space_wrap, by decide⟩

/-- Claim C7, witness: the wrap conjunct applied at the space of `"kil "`
(index 3), wrapping the last emitted fragment `"i"`. -/
theorem claim_C7_witness :
    step "kil ".toList 3 ' ' ⟨["ka", "l", "i"], "", false⟩ =
      .ok ⟨["ka", "l", "(i)", " "], "", false⟩ :=
  (claim_C7.1 "kil ".toList 3 ⟨["ka", "l", "i"], "", false⟩ "i" rfl
    (by decide)).trans (by decide)

/-- Claim C8 (confirmed): for every string composed solely of the
directly-mapped punctuation/whitespace symbols (space, the two sentence-end
marks `[` and `]`, and comma), `transliterate` returns exactly the
character-by-character concatenation of their direct table mappings, with no
other transformation applied. -/
theorem claim_C8 (s : String) (h : ∀ c ∈ s.toList, c ∈ direct_punct) :
    gurbani_unicode_to_romanised s =
      .ok (String.join (s.toList.map directMap)) := by
  unfold gurbani_unicode_to_romanised
  rw [scan_punct s.toList h s.toList 0 ⟨[], "", false⟩ h rfl rfl]
  simp [Except.map]

/-- Claim C8, witness: the closure property at the concrete input `"[ ,]"`,
whose direct mapping is `". ,."`. -/
theorem claim_C8_witness :
    gurbani_unicode_to_romanised "[ ,]" =
      .ok (String.join ("[ ,]".toList.map directMap)) :=
  claim_C8 "[ ,]" (by decide)

/-- Claim C9, counterexample.  The claim says an input whose final symbol is
an adhak yields the same output as the input without it.  Appending `~` to
`"k ki"` changes the final character read by the wrapped-around lookback at
the space of index 1, so the first word's bracketing changes:
`transliterate "k ki" = "(k) k"` but `transliterate "k ki~" = "k k"`. -/
theorem claim_C9_counterexample :
    transliterate "k ki" = .ok "(k) k" ∧
      transliterate "k ki~" = .ok "k k" ∧ "(k) k" ≠ "k k" :=
  ⟨by decide, by decide, by decide⟩

/-- Claim C9, amended: pending state left unconsumed at end of input is
silently discarded — reaching the end of the input returns the accumulated
state with no error and no flush, whatever the pending buffer and flag
(first conjunct), so `transliterate "ki" = "k"` (the buffered `"i"` is
dropped, second conjunct) and `transliterate "k~" = transliterate "k"`
(third conjunct); but appending a final adhak mark does *not* preserve the
output of every input, because the word-boundary lookback can read the
input's final character through negative-index wraparound. -/
theorem claim_C9 :
    (∀ (full : List Char) (i : Nat) (st : ScanState),
        scan full [] i st = .ok st) ∧
      transliterate "ki" = .ok "k" ∧
      transliterate "k~" = transliterate "k" :=
  ⟨scan_nil, by decide, by decide⟩

/-- Claim C10 (confirmed): when a whitespace symbol occurs at index 1 of an
input longer than 2 characters, the bracketing lookback `unicode[i-2]`
evaluates `unicode[-1]`, which is the final character of the entire input
(first conjunct: `pyGet l (-1)` is `l.getLast?`); hence the first word's
bracketing can depend on the very last character of the whole input: the
inputs `"k ki"` and `"k kk"` differ only in their final character, yet the
first word's fragment is `"(k)"` in one and `"k"` in the other (second and
third conjuncts). -/
theorem claim_C10 :
    (∀ l : List Char, l ≠ [] → pyGet l (-1) = l.getLast?) ∧
      transliterate "k ki" = .ok "(k) k" ∧
      transliterate "k kk" = .ok "k kak" :=
  ⟨pyGet_neg_one, by decide, by decide⟩

/-- Claim C10, witness: the lookback conjunct applied to the character list
of `"k ki"`, whose final character is the sihaari read by the check. -/
theorem claim_C10_witness :
    pyGet "k ki".toList (-1) = "k ki".toList.getLast? :=
  claim_C10.1 "k ki".toList (by decide)

end Gurbani
